import Mathlib

/-!
Verification development for the SageLegal pagination, segmentation and
indexing engine (PDFSage/SageLegal).

The Python sources embedded here are:
  - wrap_text_to_lines        (print_legal.py 90-109; identical copies in
                               print_lawsuit.py 136-161 and pl2.py 75-94)
  - wrap_text_to_lines        (print_wexhibits.py 10-46, a distinct variant)
  - is_full_equals_line, detect_legal_title_blocks (print_legal.py 317-347)
  - parse_header_and_sections, classify_headings   (print_legal.py 679-734)
  - is_line_all_caps          (print_legal.py 85-88)
  - extract_references        (pl2.py 333-348), with the regex engine
                              abstracted as a findall parameter
  - draw_page_of_segments     (pl2.py 350-420; print_legal.py 379-446 is the
                              same code without the reference extraction,
                              obtained here by passing an extractor that
                              always returns the empty list)
  - the counting pass and the render pass of generate_legal_document
                              (print_legal.py 903-945, pl2.py 871-915)

Python strings are modelled as Lean String; machine floats returned by
stringWidth only ever flow into one comparison (width <= max_width), so the
width measure is abstracted as an arbitrary function String -> Nat and the
page budget as a Nat.  Loops over indices are modelled with an explicit
fuel argument that is always called with a value at least the number of
remaining loop iterations; a fuel-exhausted result coincides with the loop
exit everywhere the fuel is adequate, and the two top-level walks return
Option to mark the (real) divergence of the Python loops when the line
budget is zero.
-/

namespace SageLegal

/-! ## Python string primitives used by the sources -/

/-- Whitespace recognized by Python str.split, str.strip and the regex
class backslash-s, restricted to ASCII (the inputs the tool processes). -/
def pyIsSpace (c : Char) : Bool :=
  c = ' ' || c = '\t' || c = '\n' || c = '\r' || c = '\x0b' || c = '\x0c'

/-- One step of the right fold implementing Python str.split() with no
separator: a whitespace character flushes the word being accumulated, any
other character extends it. -/
def pywordsStep (c : Char) (s : List Char × List (List Char)) :
    List Char × List (List Char) :=
  if pyIsSpace c then ([], if s.1.isEmpty then s.2 else s.1 :: s.2)
  else (c :: s.1, s.2)

/-- Final flush for the fold of pywordsStep. -/
def pywordsFlush (s : List Char × List (List Char)) : List (List Char) :=
  if s.1.isEmpty then s.2 else s.1 :: s.2

/-- Maximal runs of non-whitespace characters, in order (Python
paragraph.split() at the character-list level). -/
def pywordsList (cs : List Char) : List (List Char) :=
  pywordsFlush (cs.foldr pywordsStep ([], []))

/-- Python s.split() with no argument: whitespace-separated words, empty
pieces discarded. -/
def pywords (s : String) : List String :=
  (pywordsList s.data).map (fun l => String.mk l)

/-- Split at every newline character, keeping empty pieces (Python
s.split of a single newline, at the character-list level). -/
def splitNlList : List Char → List (List Char)
  | [] => [[]]
  | c :: cs =>
    match splitNlList cs with
    | [] => [[]]
    | p :: ps => if c = '\n' then [] :: p :: ps else (c :: p) :: ps

/-- Python full_text.split of a single newline separator. -/
def pySplitNl (s : String) : List String :=
  (splitNlList s.data).map (fun l => String.mk l)

/-- Python s.splitlines() for inputs whose line terminator is a bare
newline (the convention of the tool; the sources additionally rstrip a
carriage return from each line before use). -/
def pySplitlines (s : String) : List String :=
  match s.data with
  | [] => []
  | cs =>
    let ps := splitNlList cs
    if cs.getLast? = some '\n' then (ps.dropLast).map (fun l => String.mk l)
    else ps.map (fun l => String.mk l)

/-- Python s.strip(): drop leading and trailing whitespace. -/
def pyStripList (cs : List Char) : List Char :=
  ((cs.dropWhile pyIsSpace).reverse.dropWhile pyIsSpace).reverse

/-- Python s.strip() on strings. -/
def pyStrip (s : String) : String :=
  String.mk (pyStripList s.data)

/-- Python s.rstrip(c) for a single character c. -/
def pyRstripChar (c : Char) (s : String) : String :=
  String.mk ((s.data.reverse.dropWhile (fun d => d = c)).reverse)

/-! ## Line wrapper (print_legal.py 90-109)

def wrap_text_to_lines(pdf_canvas, full_text, font_name, font_size, max_width):
    pdf_canvas.setFont(font_name, font_size)
    paragraphs = full_text.split of newline
    all_lines = []
    for paragraph in paragraphs:
        words = paragraph.split()
        if not words:
            all_lines.append(("", False))
            continue
        current_line = ""
        for word in words:
            test_line = word if not current_line else (current_line + " " + word)
            if pdf_canvas.stringWidth(test_line, font_name, font_size) <= max_width:
                current_line = test_line
            else:
                all_lines.append((current_line, True))
                current_line = word
        if current_line:
            all_lines.append((current_line, False))
    return all_lines

The canvas and font arguments only feed stringWidth, abstracted as width.
-/

/-- Inner word loop of wrap_text_to_lines (print_legal.py variant). -/
def wrapWords (width : String → Nat) (maxWidth : Nat) :
    String → List String → List (String × Bool)
  | currentLine, [] => if currentLine ≠ "" then [(currentLine, false)] else []
  | currentLine, word :: rest =>
    let testLine := if currentLine = "" then word else currentLine ++ " " ++ word
    if width testLine ≤ maxWidth then wrapWords width maxWidth testLine rest
    else (currentLine, true) :: wrapWords width maxWidth word rest

/-- Per-paragraph body of wrap_text_to_lines (print_legal.py variant). -/
def wrapParagraph (width : String → Nat) (maxWidth : Nat) (paragraph : String) :
    List (String × Bool) :=
  let ws := pywords paragraph
  if ws.isEmpty then [("", false)] else wrapWords width maxWidth "" ws

/-- wrap_text_to_lines of print_legal.py (identical in print_lawsuit.py and
pl2.py): the per-paragraph outputs concatenated in order. -/
def wrap_text_to_lines (width : String → Nat) (maxWidth : Nat)
    (fullText : String) : List (String × Bool) :=
  (pySplitNl fullText).flatMap (wrapParagraph width maxWidth)

/-! ## Line wrapper, print_wexhibits.py 10-46 variant

Differs from the print_legal.py variant in the word loop only: when
current_line is empty the word is taken without any width check:

        for word in words:
            if not current_line:
                current_line = word
            else:
                test_line = current_line + " " + word
                if pdf_canvas.stringWidth(test_line, font_name, font_size) <= max_width:
                    current_line = test_line
                else:
                    all_lines.append((current_line, True))
                    current_line = word
-/

/-- Inner word loop of the print_wexhibits.py wrapper. -/
def wrapWordsWex (width : String → Nat) (maxWidth : Nat) :
    String → List String → List (String × Bool)
  | currentLine, [] => if currentLine ≠ "" then [(currentLine, false)] else []
  | currentLine, word :: rest =>
    if currentLine = "" then wrapWordsWex width maxWidth word rest
    else
      let testLine := currentLine ++ " " ++ word
      if width testLine ≤ maxWidth then wrapWordsWex width maxWidth testLine rest
      else (currentLine, true) :: wrapWordsWex width maxWidth word rest

/-- Per-paragraph body of the print_wexhibits.py wrapper. -/
def wrapParagraphWex (width : String → Nat) (maxWidth : Nat)
    (paragraph : String) : List (String × Bool) :=
  let ws := pywords paragraph
  if ws.isEmpty then [("", false)] else wrapWordsWex width maxWidth "" ws

/-- wrap_text_to_lines of print_wexhibits.py. -/
def wrap_text_to_lines_wexhibits (width : String → Nat) (maxWidth : Nat)
    (fullText : String) : List (String × Bool) :=
  (pySplitNl fullText).flatMap (wrapParagraphWex width maxWidth)

/-- Words of all returned lines, concatenated in output order. -/
def flatWords (xs : List (String × Bool)) : List String :=
  xs.flatMap (fun x => pywords x.1)

/-! ## Title-block detector (print_legal.py 317-347, identical in pl2.py and
print_lawsuit.py)

def is_full_equals_line(line_str):
    stripped = line_str.strip()
    if len(stripped) < 5:
        return False
    return bool(re.match of one-or-more equals signs anchored both ends, stripped)

def detect_legal_title_blocks(lines):
    scan i over lines; at a full-equals marker, scan j forward for the next
    marker: if found, yield ("legal_page_title_block", the lines strictly
    between the two markers) and resume after the closing marker, else
    yield ("normal_line", lines[i]) and resume at i + 1; a non-marker line
    is yielded as ("normal_line", lines[i]).
-/

/-- A trimmed line of five or more equals characters and nothing else. -/
def is_full_equals_line (lineStr : String) : Bool :=
  let stripped := pyStrip lineStr
  if stripped.length < 5 then false
  else !stripped.data.isEmpty && stripped.data.all (fun c => c = '=')

/-- Items yielded by the title-block detector: the Python generator yields
pairs tagged "normal_line" or "legal_page_title_block". -/
inductive BlockItem where
  | normalLine (line : String)
  | block (innerLines : List String)
deriving DecidableEq, Repr

/-- Forward scan for the next marker line: returns the lines strictly
before the first full-equals line and the lines strictly after it, or none
when no marker follows (the inner j loop of detect_legal_title_blocks). -/
def splitAtMarker : List String → Option (List String × List String)
  | [] => none
  | l :: rest =>
    if is_full_equals_line l then some ([], rest)
    else
      match splitAtMarker rest with
      | some (inner, post) => some (l :: inner, post)
      | none => none

/-- Main loop of detect_legal_title_blocks.  The fuel argument only bounds
the number of loop iterations; every iteration consumes at least one line,
so the top-level call with the line count as fuel never exhausts it. -/
def detectAux : Nat → List String → List BlockItem
  | 0, _ => []
  | _ + 1, [] => []
  | fuel + 1, l :: rest =>
    if is_full_equals_line l then
      match splitAtMarker rest with
      | some (inner, post) => BlockItem.block inner :: detectAux fuel post
      | none => BlockItem.normalLine l :: detectAux fuel rest
    else BlockItem.normalLine l :: detectAux fuel rest

/-- detect_legal_title_blocks of print_legal.py, as the list of yielded
items in generator order. -/
def detect_legal_title_blocks (lines : List String) : List BlockItem :=
  detectAux lines.length lines

/-! ## Segments and the two-pass paginator

prepare_main_pdf_segments builds dictionaries of exactly two shapes: text
line records with keys text, font_name, font_size, alignment, is_heading,
is_subheading, and title-block records carrying page_always_new = True and
the block lines.  seg.get("page_always_new") is truthy exactly on the
second shape, so the dictionaries are embedded as a two-case sum. -/

/-- Atomic renderable unit built by prepare_main_pdf_segments. -/
inductive Segment where
  | text (text : String) (fontName : String) (fontSize : Nat)
      (alignment : String) (isHeading : Bool) (isSubheading : Bool)
  | titleBlock (lines : List String)
deriving DecidableEq, Repr

/-- Truthiness of seg.get("page_always_new"). -/
def Segment.isBlock : Segment → Bool
  | .titleBlock _ => true
  | .text _ _ _ _ _ _ => false

/-- Whether position k of the segment sequence holds a text segment. -/
def isTextIdx (segments : List Segment) (k : Nat) : Bool :=
  match segments[k]? with
  | some (.text _ _ _ _ _ _) => true
  | _ => false

/-- A text line drawn by the render pass, with the page number and line
number assigned to it at render time (pl2.py 396-399: line_number is
end_index + 1). -/
structure RenderedLine where
  idx : Nat
  text : String
  page : Nat
  line : Nat
deriving DecidableEq, Repr

/-- Result of one draw_page_of_segments call: the returned end_index plus
the entries appended to heading_positions and reference_positions and the
text lines drawn, in order; blockDrawn records whether the page drew a
title block (the early-return branch). -/
structure PageResult where
  nextIndex : Nat
  headings : List (String × Nat × Nat × Bool)
  refs : List (String × Nat × Nat)
  rendered : List RenderedLine
  blockDrawn : Bool
deriving DecidableEq, Repr

/-! draw_page_of_segments (pl2.py 350-420), body loop:

    end_index = start_index
    current_line_count = 0
    while end_index < len(segments) and current_line_count < max_lines_per_page:
        seg = segments[end_index]
        if seg.get("page_always_new"):
            if current_line_count > 0:
                break
            else:
                draw_legal_page_title_block(...)
                end_index += 1
                return end_index
        line_number = end_index + 1
        ... draw line numbers ...
        if seg["is_heading"] or seg["is_subheading"]:
            heading_positions.append((seg["text"], page_number, line_number, seg["is_subheading"]))
        text_line = seg["text"]
        references_found = extract_references(text_line)
        for ref in references_found:
            reference_positions.append((ref, page_number, line_number))
        ... draw the text ...
        current_line_count += 1
        end_index += 1
    ... footer ...
    return end_index

print_legal.py 379-446 is the same loop without the two reference lines;
it is recovered from this embedding by taking extractRefs to be the
function that always returns the empty list. -/

/-- The while loop of draw_page_of_segments.  Fuel bounds iterations; each
iteration advances end_index by one, so fuel equal to the number of
segments past end_index is always adequate, and on exhaustion end_index
has reached the length so the result coincides with the loop exit. -/
def drawPageLoop (extractRefs : String → List String) (segments : List Segment)
    (maxLines pageNumber : Nat) : Nat → Nat → Nat → PageResult
  | 0, endIndex, _ => ⟨endIndex, [], [], [], false⟩
  | fuel + 1, endIndex, count =>
    if hlt : endIndex < segments.length then
      if count < maxLines then
        match segments[endIndex] with
        | .titleBlock _ =>
          if 0 < count then ⟨endIndex, [], [], [], false⟩
          else ⟨endIndex + 1, [], [], [], true⟩
        | .text t _ _ _ ih isub =>
          let lineNumber := endIndex + 1
          let hs := if ih || isub then [(t, pageNumber, lineNumber, isub)] else []
          let rs := (extractRefs t).map (fun s => (s, pageNumber, lineNumber))
          let r := drawPageLoop extractRefs segments maxLines pageNumber fuel
            (endIndex + 1) (count + 1)
          ⟨r.nextIndex, hs ++ r.headings, rs ++ r.refs,
            ⟨endIndex, t, pageNumber, lineNumber⟩ :: r.rendered, r.blockDrawn⟩
      else ⟨endIndex, [], [], [], false⟩
    else ⟨endIndex, [], [], [], false⟩

/-- draw_page_of_segments: one page starting at start_index with an empty
page (current_line_count = 0). -/
def draw_page_of_segments (extractRefs : String → List String)
    (segments : List Segment) (maxLines pageNumber startIndex : Nat) :
    PageResult :=
  drawPageLoop extractRefs segments maxLines pageNumber
    (segments.length - startIndex) startIndex 0

/-! Counting pass of generate_legal_document (print_legal.py 903-921):

    current_index = 0
    text_pages = 0
    while current_index < total_segments:
        seg = segments[current_index]
        if seg.get("page_always_new"):
            text_pages += 1
            current_index += 1
        else:
            lines_used = 0
            local_i = current_index
            while local_i < total_segments and lines_used < max_lines_per_page:
                s = segments[local_i]
                if s.get("page_always_new"):
                    break
                lines_used += 1
                local_i += 1
            text_pages += 1
            current_index = local_i
-/

/-- The inner chunking loop of the counting pass. -/
def consumeRun (segments : List Segment) (maxLines : Nat) :
    Nat → Nat → Nat → Nat
  | 0, i, _ => i
  | fuel + 1, i, used =>
    if hlt : i < segments.length then
      if used < maxLines then
        if (segments[i]).isBlock then i
        else consumeRun segments maxLines fuel (i + 1) (used + 1)
      else i
    else i

/-- The outer loop of the counting pass.  Fuel bounds the number of pages;
it returns none when the fuel runs out before the walk completes, which
with the segment count as fuel happens exactly when the Python loop
diverges (zero line budget with a leading text segment). -/
def countPagesAux (segments : List Segment) (maxLines : Nat) :
    Nat → Nat → Option Nat
  | 0, i => if i < segments.length then none else some 0
  | fuel + 1, i =>
    if hlt : i < segments.length then
      if (segments[i]).isBlock then
        (countPagesAux segments maxLines fuel (i + 1)).map (· + 1)
      else
        (countPagesAux segments maxLines fuel
          (consumeRun segments maxLines (segments.length - i) i 0)).map (· + 1)
    else some 0

/-- text_pages as computed by the counting pass of generate_legal_document. -/
def countPages (segments : List Segment) (maxLines : Nat) : Option Nat :=
  countPagesAux segments maxLines segments.length 0

/-- Result of the render pass: number of draw_page_of_segments calls made,
and the accumulated heading positions, reference positions and drawn text
lines in order. -/
structure RenderResult where
  pages : Nat
  headings : List (String × Nat × Nat × Bool)
  refs : List (String × Nat × Nat)
  rendered : List RenderedLine
deriving DecidableEq, Repr

/-! Render pass of generate_legal_document (print_legal.py 924-945,
pl2.py 892-915):

    page_number = 2
    current_index = 0
    while current_index < total_segments:
        next_index = draw_page_of_segments(..., start_index=current_index,
            page_number=page_number, ...)
        pdf_canvas.showPage()
        page_number += 1
        current_index = next_index
-/

/-- The render-pass loop.  Fuel bounds the number of pages, as for the
counting pass. -/
def renderPassAux (extractRefs : String → List String)
    (segments : List Segment) (maxLines : Nat) :
    Nat → Nat → Nat → Option RenderResult
  | 0, i, _ =>
    if i < segments.length then none else some ⟨0, [], [], []⟩
  | fuel + 1, i, pageNumber =>
    if i < segments.length then
      let p := draw_page_of_segments extractRefs segments maxLines pageNumber i
      (renderPassAux extractRefs segments maxLines fuel p.nextIndex
        (pageNumber + 1)).map
        (fun r => ⟨r.pages + 1, p.headings ++ r.headings, p.refs ++ r.refs,
          p.rendered ++ r.rendered⟩)
    else some ⟨0, [], [], []⟩

/-- The render pass of generate_legal_document, starting at page number 2
(page 1 is the cover sheet). -/
def renderPass (extractRefs : String → List String) (segments : List Segment)
    (maxLines : Nat) : Option RenderResult :=
  renderPassAux extractRefs segments maxLines segments.length 0 2

/-- Checks that a list of line numbers increases by exactly one at every
adjacent pair. -/
def isSuccChain : List Nat → Bool
  | [] => true
  | [_] => true
  | a :: b :: t => (b = a + 1) && isSuccChain (b :: t)

/-! ## Heading classifier (print_legal.py 679-734, identical in pl2.py and
print_lawsuit.py)

is_line_all_caps (print_legal.py 85-88): at least one ASCII uppercase
letter and no ASCII lowercase letter.

The heading pattern is the regex
  caret ( (?: [IVXLCDM]+ dot | [0-9]+ dot )+ ) backslash-s+ ( dot-star ) dollar
compiled with IGNORECASE and applied with re.match to a single line.
Because the Roman-letter class (case-insensitive) and the digit class are
disjoint and neither contains the dot, the regex is deterministic: the
group-one prefix is the maximal run of groups, each a maximal nonempty run
of Roman letters or of digits followed by a literal dot (backtracking to
fewer groups or shorter runs can never expose the whitespace or the dot
the pattern next requires), then at least one whitespace character, then
the rest of the line as group two. -/

/-- Membership in the regex class [IVXLCDM] under IGNORECASE. -/
def isRomanChar (c : Char) : Bool :=
  c = 'I' || c = 'V' || c = 'X' || c = 'L' || c = 'C' || c = 'D' || c = 'M' ||
  c = 'i' || c = 'v' || c = 'x' || c = 'l' || c = 'c' || c = 'd' || c = 'm'

/-- Membership in the regex class [0-9]. -/
def isAsciiDigit (c : Char) : Bool := '0' ≤ c && c ≤ '9'

/-- One numbering group: a nonempty run of Roman letters or of digits,
followed by a literal dot.  Returns the consumed characters (dot
included) and the remainder. -/
def parseOneGroup (cs : List Char) : Option (List Char × List Char) :=
  let rr := cs.takeWhile isRomanChar
  if !rr.isEmpty then
    match cs.drop rr.length with
    | '.' :: rest => some (rr ++ ['.'], rest)
    | _ => none
  else
    let dr := cs.takeWhile isAsciiDigit
    if !dr.isEmpty then
      match cs.drop dr.length with
      | '.' :: rest => some (dr ++ ['.'], rest)
      | _ => none
    else none

/-- Greedy repetition of parseOneGroup (the + on the group).  Each group
consumes at least two characters, so fuel one past the character count
never exhausts before parseOneGroup itself fails. -/
def parseGroups : Nat → List Char → Option (List Char × List Char)
  | 0, _ => none
  | fuel + 1, cs =>
    match parseOneGroup cs with
    | none => none
    | some (g, rest) =>
      match parseGroups fuel rest with
      | some (gs, rest2) => some (g ++ gs, rest2)
      | none => some (g, rest)

/-- re.match of the heading pattern against a line: group one (the
numbering token) and group two (the title) on success. -/
def heading_match (line : String) : Option (String × String) :=
  match parseGroups (line.data.length + 1) line.data with
  | none => none
  | some (num, rest) =>
    let ws := rest.takeWhile pyIsSpace
    if ws.isEmpty then none
    else some (String.mk num, String.mk (rest.drop ws.length))

/-- is_line_all_caps of print_legal.py 85-88. -/
def is_line_all_caps (s : String) : Bool :=
  (s.data.any (fun c => 'A' ≤ c && c ≤ 'Z')) &&
    !(s.data.any (fun c => 'a' ≤ c && c ≤ 'z'))

/-- The qualifying-heading test shared by both loops of
parse_header_and_sections: the line matches the heading pattern and the
stripped title is all caps.  Returns the stripped number and title. -/
def capsHeading (line : String) : Option (String × String) :=
  match heading_match line with
  | some (num, title) =>
    if is_line_all_caps (pyStrip title) then some (pyStrip num, pyStrip title)
    else none
  | none => none

/-- Python line.rstrip of newline then rstrip of carriage return, applied
to every line before matching. -/
def lineCleanup (l : String) : String :=
  pyRstripChar '\r' (pyRstripChar '\n' l)

/-- OrderedDict assignment od[k] = v: update in place when the key exists,
append otherwise. -/
def odSet (od : List (String × String)) (k v : String) :
    List (String × String) :=
  if od.any (fun p => p.1 = k) then
    od.map (fun p => if p.1 = k then (k, v) else p)
  else od ++ [(k, v)]

/-- First loop of parse_header_and_sections: collect cleaned lines into
the header until the first qualifying heading line; the remainder starts
at that (uncleaned) line, which the second loop re-reads. -/
def headerSplit : List String → List String × List String
  | [] => ([], [])
  | l :: rest =>
    if (capsHeading (lineCleanup l)).isSome then ([], l :: rest)
    else
      let r := headerSplit rest
      (lineCleanup l :: r.1, r.2)

/-- Second loop of parse_header_and_sections: on a qualifying heading,
flush the current section (when one is open), strip one trailing dot from
the stripped numbering token and open the section keyed by
number-space-title; every other line joins the current body. -/
def sectionsLoop : List String → Option String → List String →
    List (String × String) → List (String × String)
  | [], cur, body, od =>
    match cur with
    | some k => odSet od k (String.intercalate "\n" body)
    | none => od
  | l :: rest, cur, body, od =>
    let line := lineCleanup l
    match capsHeading line with
    | some (num, title) =>
      let od2 := match cur with
        | some k => odSet od k (String.intercalate "\n" body)
        | none => od
      let num2 := if num.data.getLast? = some '.' then String.mk num.data.dropLast
        else num
      sectionsLoop rest (some (num2 ++ " " ++ title)) [] od2
    | none => sectionsLoop rest cur (body ++ [line]) od

/-- parse_header_and_sections of print_legal.py 679-719: header content
(the pre-heading lines joined by newlines) and the ordered section map. -/
def parse_header_and_sections (rawText : String) :
    String × List (String × String) :=
  let lines := pySplitlines rawText
  let hr := headerSplit lines
  (String.intercalate "\n" hr.1, sectionsLoop hr.2 none [] [])

/-- Python full_key.split(None, 1)[0]: the first whitespace-delimited
token. -/
def pyFirstToken (s : String) : String :=
  String.mk ((s.data.dropWhile pyIsSpace).takeWhile (fun c => !pyIsSpace c))

/-- classify_headings of print_legal.py 721-734: style each section key by
the dot count of its first token. -/
def classify_headings (od : List (String × String)) :
    List (String × String) :=
  od.map (fun p =>
    let headingNumber := pyFirstToken p.1
    let dotCount := headingNumber.data.countP (fun c => c = '.')
    (p.1, if dotCount > 1 then "subsection" else "section"))

/-! ## Citation extraction (pl2.py 333-348)

def extract_references(text):
    pattern = re.compile of five alternative citation patterns, each a
        capture group
    matches = pattern.findall(text)
    found = []
    for match in matches:
        for group in match:
            if group.strip():
                found.append(group.strip())
    return found

re.findall with five groups returns a five-tuple of group texts per match;
the regex engine itself is external to this development and is abstracted
as the findall parameter, exactly as the spec treats the pattern table as
configurable. -/

/-- extract_references of pl2.py over an abstract findall: keep the
stripped nonempty groups of every match, in order. -/
def extract_references
    (findall : String → List (String × String × String × String × String))
    (text : String) : List String :=
  (findall text).flatMap (fun m =>
    [m.1, m.2.1, m.2.2.1, m.2.2.2.1, m.2.2.2.2].filterMap (fun g =>
      if pyStrip g ≠ "" then some (pyStrip g) else none))

/-! ## Auxiliary notions used only by the statements and proofs -/

/-- Shape of every word Python split() returns: nonempty and free of
whitespace. -/
def goodWordStr (w : String) : Prop :=
  w.data ≠ [] ∧ ∀ c ∈ w.data, pyIsSpace c = false

/-- Words joined by single spaces, at the character level: the shape of
the accumulated current_line of the wrappers. -/
def joinSp : List (List Char) → List Char
  | [] => []
  | [w] => w
  | w :: u :: ws => w ++ ' ' :: joinSp (u :: ws)

/-- Text of the segment at position k (empty for blocks and out of
range; only ever read at text positions). -/
def textAt (segments : List Segment) (k : Nat) : String :=
  match segments[k]? with
  | some (.text t _ _ _ _ _) => t
  | _ => ""

/-! ## Lemmas on the word machinery -/

lemma string_eq_empty_iff (s : String) : s = "" ↔ s.data = [] := by
  constructor
  · intro h; rw [h]
  · intro h
    cases s with
    | mk d =>
      have hd : d = [] := h
      subst hd
      rfl

lemma foldr_step_no_space (w : List Char) (hw : ∀ c ∈ w, pyIsSpace c = false) :
    ∀ cur acc, w.foldr pywordsStep (cur, acc) = (w ++ cur, acc) := by
  induction w with
  | nil => intro cur acc; rfl
  | cons c cs ih =>
    intro cur acc
    have hc : pyIsSpace c = false := hw c (by simp)
    have hcs : ∀ d ∈ cs, pyIsSpace d = false := fun d hd => hw d (by simp [hd])
    simp [List.foldr, ih hcs, pywordsStep, hc]

lemma joinSp_fold (v : List Char) (vs : List (List Char))
    (hgood : ∀ w ∈ v :: vs, w ≠ [] ∧ ∀ c ∈ w, pyIsSpace c = false) :
    (joinSp (v :: vs)).foldr pywordsStep ([], []) = (v, vs) := by
  induction vs generalizing v with
  | nil =>
    have := (hgood v (by simp)).2
    simp [joinSp, foldr_step_no_space v this]
  | cons u us ih =>
    have hv := hgood v (by simp)
    have hu := hgood u (by simp)
    have hrest : ∀ w ∈ u :: us, w ≠ [] ∧ ∀ c ∈ w, pyIsSpace c = false :=
      fun w hw => hgood w (by simp at hw ⊢; tauto)
    have hstep := ih u hrest
    show (v ++ ' ' :: joinSp (u :: us)).foldr pywordsStep ([], []) = (v, u :: us)
    rw [List.foldr_append]
    have h1 : (' ' :: joinSp (u :: us)).foldr pywordsStep ([], []) = ([], u :: us) := by
      simp [List.foldr, hstep, pywordsStep, pyIsSpace, hu.1]
    rw [h1, foldr_step_no_space v hv.2]
    simp

lemma pywordsList_joinSp (ws : List (List Char))
    (hgood : ∀ w ∈ ws, w ≠ [] ∧ ∀ c ∈ w, pyIsSpace c = false) :
    pywordsList (joinSp ws) = ws := by
  cases ws with
  | nil => rfl
  | cons v vs =>
    have := joinSp_fold v vs hgood
    simp [pywordsList, this, pywordsFlush, (hgood v (by simp)).1]

lemma pywordsList_good (cs : List Char) :
    ∀ w ∈ pywordsList cs, w ≠ [] ∧ ∀ c ∈ w, pyIsSpace c = false := by
  have main : ∀ cs : List Char,
      (∀ c ∈ (cs.foldr pywordsStep ([], [])).1, pyIsSpace c = false) ∧
      (∀ w ∈ (cs.foldr pywordsStep ([], [])).2,
        w ≠ [] ∧ ∀ c ∈ w, pyIsSpace c = false) := by
    intro cs
    induction cs with
    | nil => simp
    | cons c rest ih =>
      by_cases hc : pyIsSpace c = true
      · refine ⟨by simp [List.foldr, pywordsStep, hc], ?_⟩
        simp only [List.foldr, pywordsStep, hc, if_true]
        by_cases hemp : (rest.foldr pywordsStep ([], [])).1.isEmpty
        · simpa [hemp] using ih.2
        · simp only [hemp, if_false]
          intro w hw
          rcases List.mem_cons.mp hw with hw2 | hw2
          · subst hw2
            exact ⟨by simpa using hemp, ih.1⟩
          · exact ih.2 w hw2
      · have hc2 : pyIsSpace c = false := by revert hc; cases pyIsSpace c <;> simp
        refine ⟨?_, ?_⟩
        · simp only [List.foldr, pywordsStep, hc2, if_false]
          intro d hd
          rcases List.mem_cons.mp hd with hd2 | hd2
          · subst hd2; exact hc2
          · exact ih.1 d hd2
        · simpa [List.foldr, pywordsStep, hc2] using ih.2
  intro w hw
  unfold pywordsList pywordsFlush at hw
  by_cases hemp : ((cs.foldr pywordsStep ([], [])).1).isEmpty
  · exact (main cs).2 w (by simpa [hemp] using hw)
  · simp only [hemp, if_false] at hw
    rcases List.mem_cons.mp hw with hw2 | hw2
    · subst hw2
      exact ⟨by simpa using hemp, (main cs).1⟩
    · exact (main cs).2 w hw2

lemma pywords_good (s : String) : ∀ w ∈ pywords s, goodWordStr w := by
  intro w hw
  unfold pywords at hw
  rcases List.mem_map.mp hw with ⟨l, hl, rfl⟩
  exact pywordsList_good s.data l hl

lemma joinSp_ne_nil (v : List Char) (vs : List (List Char)) (hv : v ≠ []) :
    joinSp (v :: vs) ≠ [] := by
  cases vs with
  | nil => simpa [joinSp] using hv
  | cons u us => simp [joinSp]

lemma joinSp_append_single (cws : List (List Char)) (z : List Char)
    (h : cws ≠ []) : joinSp (cws ++ [z]) = joinSp cws ++ ' ' :: z := by
  induction cws with
  | nil => cases h rfl
  | cons v vs ih =>
    cases vs with
    | nil => simp [joinSp]
    | cons u us =>
      have step := ih (by simp)
      calc joinSp ((v :: u :: us) ++ [z])
          = v ++ ' ' :: joinSp ((u :: us) ++ [z]) := by simp [joinSp]
        _ = v ++ ' ' :: (joinSp (u :: us) ++ ' ' :: z) := by rw [step]
        _ = joinSp (v :: u :: us) ++ ' ' :: z := by simp [joinSp]

lemma pywords_of_joinSp (cur : String) (cws : List String)
    (hdata : cur.data = joinSp (cws.map String.data))
    (hgood : ∀ w ∈ cws, goodWordStr w) :
    pywords cur = cws := by
  unfold pywords
  rw [hdata, pywordsList_joinSp]
  · rw [List.map_map]
    have hid : ((fun l => String.mk l) ∘ String.data) = id := funext fun x => rfl
    rw [hid, List.map_id]
  · intro w hw
    rcases List.mem_map.mp hw with ⟨x, hx, rfl⟩
    exact ⟨(hgood x hx).1, (hgood x hx).2⟩

lemma cur_empty_iff (cur : String) (cws : List String)
    (hdata : cur.data = joinSp (cws.map String.data))
    (hgood : ∀ w ∈ cws, goodWordStr w) :
    (cur = "") ↔ cws = [] := by
  rw [string_eq_empty_iff, hdata]
  cases cws with
  | nil => simp [joinSp]
  | cons v vs =>
    have hv : v.data ≠ [] := (hgood v (by simp)).1
    simp only [List.map_cons]
    constructor
    · intro h; exact absurd h (joinSp_ne_nil _ _ hv)
    · intro h; cases h

lemma flatWords_cons (a : String) (b : Bool) (xs : List (String × Bool)) :
    flatWords ((a, b) :: xs) = pywords a ++ flatWords xs := by
  simp [flatWords]

lemma testLine_data (cur : String) (w : String) :
    (cur ++ " " ++ w).data = cur.data ++ ' ' :: w.data := by
  rw [String.data_append, String.data_append, List.append_assoc]
  rfl

lemma wrapWords_flatWords (width : String → Nat) (maxW : Nat) :
    ∀ (ws : List String) (cur : String) (cws : List String),
      (∀ w ∈ ws, goodWordStr w) → (∀ w ∈ cws, goodWordStr w) →
      cur.data = joinSp (cws.map String.data) →
      flatWords (wrapWords width maxW cur ws) = cws ++ ws := by
  intro ws
  induction ws with
  | nil =>
    intro cur cws hws hcws hdata
    by_cases hc : cur = ""
    · have h0 : cws = [] := (cur_empty_iff cur cws hdata hcws).mp hc
      subst h0
      simp [wrapWords, hc, flatWords]
    · simp only [wrapWords, ne_eq, hc, not_false_iff, if_true]
      rw [flatWords_cons, pywords_of_joinSp cur cws hdata hcws]
      simp [flatWords]
  | cons w rest ih =>
    intro cur cws hws hcws hdata
    have hw : goodWordStr w := hws w (by simp)
    have hrest : ∀ x ∈ rest, goodWordStr x := fun x hx => hws x (by simp [hx])
    have hsingle : ∀ x ∈ [w], goodWordStr x := by
      intro x hx; simp at hx; subst hx; exact hw
    have hwdata : w.data = joinSp (List.map String.data [w]) := by
      simp [joinSp]
    by_cases hc : cur = ""
    · have h0 : cws = [] := (cur_empty_iff cur cws hdata hcws).mp hc
      subst h0
      simp only [wrapWords, hc, if_true, List.nil_append]
      by_cases hfit : width w ≤ maxW
      · rw [if_pos hfit]
        have := ih w [w] hrest hsingle hwdata
        simpa using this
      · rw [if_neg hfit]
        rw [flatWords_cons]
        have := ih w [w] hrest hsingle hwdata
        rw [this]
        rfl
    · have hcws0 : cws ≠ [] := fun h => hc ((cur_empty_iff cur cws hdata hcws).mpr h)
      simp only [wrapWords, hc, if_false]
      by_cases hfit : width (cur ++ " " ++ w) ≤ maxW
      · rw [if_pos hfit]
        have hne : List.map String.data cws ≠ [] := by simpa using hcws0
        have hdata2 : (cur ++ " " ++ w).data = joinSp ((cws ++ [w]).map String.data) := by
          rw [testLine_data cur w, hdata, List.map_append, List.map_cons, List.map_nil,
            joinSp_append_single (List.map String.data cws) w.data hne]
        have hgood2 : ∀ x ∈ cws ++ [w], goodWordStr x := by
          intro x hx
          rcases List.mem_append.mp hx with hx | hx
          · exact hcws x hx
          · simp at hx; subst hx; exact hw
        have := ih (cur ++ " " ++ w) (cws ++ [w]) hrest hgood2 hdata2
        rw [this, List.append_assoc]
        rfl
      · rw [if_neg hfit]
        rw [flatWords_cons, pywords_of_joinSp cur cws hdata hcws]
        have := ih w [w] hrest hsingle hwdata
        rw [this]
        rfl

lemma wrapWordsWex_flatWords (width : String → Nat) (maxW : Nat) :
    ∀ (ws : List String) (cur : String) (cws : List String),
      (∀ w ∈ ws, goodWordStr w) → (∀ w ∈ cws, goodWordStr w) →
      cur.data = joinSp (cws.map String.data) →
      flatWords (wrapWordsWex width maxW cur ws) = cws ++ ws := by
  intro ws
  induction ws with
  | nil =>
    intro cur cws hws hcws hdata
    by_cases hc : cur = ""
    · have h0 : cws = [] := (cur_empty_iff cur cws hdata hcws).mp hc
      subst h0
      simp [wrapWordsWex, hc, flatWords]
    · simp only [wrapWordsWex, ne_eq, hc, not_false_iff, if_true]
      rw [flatWords_cons, pywords_of_joinSp cur cws hdata hcws]
      simp [flatWords]
  | cons w rest ih =>
    intro cur cws hws hcws hdata
    have hw : goodWordStr w := hws w (by simp)
    have hrest : ∀ x ∈ rest, goodWordStr x := fun x hx => hws x (by simp [hx])
    have hsingle : ∀ x ∈ [w], goodWordStr x := by
      intro x hx; simp at hx; subst hx; exact hw
    have hwdata : w.data = joinSp (List.map String.data [w]) := by
      simp [joinSp]
    by_cases hc : cur = ""
    · have h0 : cws = [] := (cur_empty_iff cur cws hdata hcws).mp hc
      subst h0
      simp only [wrapWordsWex, hc, if_true, List.nil_append]
      have := ih w [w] hrest hsingle hwdata
      simpa using this
    · have hcws0 : cws ≠ [] := fun h => hc ((cur_empty_iff cur cws hdata hcws).mpr h)
      simp only [wrapWordsWex, hc, if_false]
      by_cases hfit : width (cur ++ " " ++ w) ≤ maxW
      · rw [if_pos hfit]
        have hne : List.map String.data cws ≠ [] := by simpa using hcws0
        have hdata2 : (cur ++ " " ++ w).data = joinSp ((cws ++ [w]).map String.data) := by
          rw [testLine_data cur w, hdata, List.map_append, List.map_cons, List.map_nil,
            joinSp_append_single (List.map String.data cws) w.data hne]
        have hgood2 : ∀ x ∈ cws ++ [w], goodWordStr x := by
          intro x hx
          rcases List.mem_append.mp hx with hx | hx
          · exact hcws x hx
          · simp at hx; subst hx; exact hw
        have := ih (cur ++ " " ++ w) (cws ++ [w]) hrest hgood2 hdata2
        rw [this, List.append_assoc]
        rfl
      · rw [if_neg hfit]
        rw [flatWords_cons, pywords_of_joinSp cur cws hdata hcws]
        have := ih w [w] hrest hsingle hwdata
        rw [this]
        rfl

lemma wrapParagraph_flatWords (width : String → Nat) (maxW : Nat)
    (p : String) : flatWords (wrapParagraph width maxW p) = pywords p := by
  unfold wrapParagraph
  by_cases hemp : (pywords p).isEmpty
  · rw [if_pos hemp]
    have : pywords p = [] := by simpa using hemp
    rw [this]
    rfl
  · rw [if_neg hemp]
    have := wrapWords_flatWords width maxW (pywords p) "" []
      (pywords_good p) (by intro x hx; cases hx) rfl
    simpa using this

lemma wrapParagraphWex_flatWords (width : String → Nat) (maxW : Nat)
    (p : String) : flatWords (wrapParagraphWex width maxW p) = pywords p := by
  unfold wrapParagraphWex
  by_cases hemp : (pywords p).isEmpty
  · rw [if_pos hemp]
    have : pywords p = [] := by simpa using hemp
    rw [this]
    rfl
  · rw [if_neg hemp]
    have := wrapWordsWex_flatWords width maxW (pywords p) "" []
      (pywords_good p) (by intro x hx; cases hx) rfl
    simpa using this

lemma flatWords_flatMap (l : List String) (f : String → List (String × Bool)) :
    flatWords (l.flatMap f) = l.flatMap (fun a => flatWords (f a)) := by
  induction l with
  | nil => rfl
  | cons a l ih =>
    simp only [List.flatMap_cons]
    rw [← ih]
    simp [flatWords]

lemma flatMap_congr_mem {α β : Type} (l : List α) (f g : α → List β)
    (h : ∀ a ∈ l, f a = g a) : l.flatMap f = l.flatMap g := by
  induction l with
  | nil => rfl
  | cons a l ih =>
    simp only [List.flatMap_cons]
    rw [h a (by simp), ih (fun a ha => h a (by simp [ha]))]

/-- C5. For every input text, width measure and maximum width,
concatenating in order the whitespace-separated words of all lines
returned by wrap_text_to_lines reproduces exactly the word sequence of
the input, and does so paragraph by paragraph (the paragraphs being the
newline-separated pieces of the input). -/
theorem C5_wrap_fidelity (width : String → Nat) (maxW : Nat) (text : String) :
    flatWords (wrap_text_to_lines width maxW text) =
      (pySplitNl text).flatMap pywords ∧
    flatWords (wrap_text_to_lines_wexhibits width maxW text) =
      (pySplitNl text).flatMap pywords ∧
    ∀ p ∈ pySplitNl text,
      flatWords (wrapParagraph width maxW p) = pywords p ∧
      flatWords (wrapParagraphWex width maxW p) = pywords p := by
  refine ⟨?_, ?_, ?_⟩
  · unfold wrap_text_to_lines
    rw [flatWords_flatMap]
    exact flatMap_congr_mem _ _ _ (fun p _ => wrapParagraph_flatWords width maxW p)
  · unfold wrap_text_to_lines_wexhibits
    rw [flatWords_flatMap]
    exact flatMap_congr_mem _ _ _ (fun p _ => wrapParagraphWex_flatWords width maxW p)
  · intro p _
    exact ⟨wrapParagraph_flatWords width maxW p, wrapParagraphWex_flatWords width maxW p⟩

/-- Witness for C5 at a concrete input. -/
theorem C5_wrap_fidelity_witness :
    ("hello world" ∈ pySplitNl "hello world") ∧
    flatWords (wrapParagraph String.length 3 "hello world") =
      pywords "hello world" := by
  refine ⟨by decide, ?_⟩
  exact ((C5_wrap_fidelity String.length 3 "hello world").2.2 "hello world" (by decide)).1

lemma wrapWords_snd (width : String → Nat) (maxW : Nat) :
    ∀ (ws : List String) (cur : String), (cur = "" → ws ≠ []) →
      (∀ w ∈ ws, w ≠ "") →
      ∃ n, (wrapWords width maxW cur ws).map Prod.snd =
        List.replicate n true ++ [false] := by
  intro ws
  induction ws with
  | nil =>
    intro cur hcur _
    have hc : cur ≠ "" := fun h => (hcur h) rfl
    refine ⟨0, ?_⟩
    simp [wrapWords, hc]
  | cons w rest ih =>
    intro cur _ hws
    have hw : w ≠ "" := hws w (by simp)
    have hrest : ∀ x ∈ rest, x ≠ "" := fun x hx => hws x (by simp [hx])
    simp only [wrapWords]
    by_cases hc : cur = ""
    · rw [if_pos hc]
      by_cases hfit : width w ≤ maxW
      · rw [if_pos hfit]
        exact ih w (fun h => absurd h hw) hrest
      · rw [if_neg hfit]
        rcases ih w (fun h => absurd h hw) hrest with ⟨n, hn⟩
        exact ⟨n + 1, by simp [hn, List.replicate_succ]⟩
    · rw [if_neg hc]
      have htest : cur ++ " " ++ w ≠ "" := by
        rw [ne_eq, string_eq_empty_iff, testLine_data]
        simp
      by_cases hfit : width (cur ++ " " ++ w) ≤ maxW
      · rw [if_pos hfit]
        exact ih (cur ++ " " ++ w) (fun h => absurd h htest) hrest
      · rw [if_neg hfit]
        rcases ih w (fun h => absurd h hw) hrest with ⟨n, hn⟩
        exact ⟨n + 1, by simp [hn, List.replicate_succ]⟩

lemma wrapWordsWex_snd (width : String → Nat) (maxW : Nat) :
    ∀ (ws : List String) (cur : String), (cur = "" → ws ≠ []) →
      (∀ w ∈ ws, w ≠ "") →
      ∃ n, (wrapWordsWex width maxW cur ws).map Prod.snd =
        List.replicate n true ++ [false] := by
  intro ws
  induction ws with
  | nil =>
    intro cur hcur _
    have hc : cur ≠ "" := fun h => (hcur h) rfl
    refine ⟨0, ?_⟩
    simp [wrapWordsWex, hc]
  | cons w rest ih =>
    intro cur _ hws
    have hw : w ≠ "" := hws w (by simp)
    have hrest : ∀ x ∈ rest, x ≠ "" := fun x hx => hws x (by simp [hx])
    simp only [wrapWordsWex]
    by_cases hc : cur = ""
    · rw [if_pos hc]
      exact ih w (fun h => absurd h hw) hrest
    · rw [if_neg hc]
      have htest : cur ++ " " ++ w ≠ "" := by
        rw [ne_eq, string_eq_empty_iff, testLine_data]
        simp
      by_cases hfit : width (cur ++ " " ++ w) ≤ maxW
      · rw [if_pos hfit]
        exact ih (cur ++ " " ++ w) (fun h => absurd h htest) hrest
      · rw [if_neg hfit]
        rcases ih w (fun h => absurd h hw) hrest with ⟨n, hn⟩
        exact ⟨n + 1, by simp [hn, List.replicate_succ]⟩

lemma pywords_ne_empty_string (p : String) : ∀ w ∈ pywords p, w ≠ "" := by
  intro w hw h
  have := (pywords_good p w hw).1
  rw [string_eq_empty_iff] at h
  exact this h

/-- C8. For every paragraph, in both wrapper variants: an empty paragraph
yields exactly one empty line tagged forced false; in general the emitted
flags are some number of width-forced true lines followed by the final
paragraph-end line tagged false (so every line emitted because the next
word would overflow carries true, and the final accumulated line carries
false). -/
theorem C8_forced_flags (width : String → Nat) (maxW : Nat) (p : String) :
    (pywords p = [] →
      wrapParagraph width maxW p = [("", false)] ∧
      wrapParagraphWex width maxW p = [("", false)]) ∧
    (∃ n, (wrapParagraph width maxW p).map Prod.snd =
      List.replicate n true ++ [false]) ∧
    (∃ n, (wrapParagraphWex width maxW p).map Prod.snd =
      List.replicate n true ++ [false]) := by
  refine ⟨?_, ?_, ?_⟩
  · intro hp
    have hemp : (pywords p).isEmpty := by simp [hp]
    constructor
    · unfold wrapParagraph; rw [if_pos hemp]
    · unfold wrapParagraphWex; rw [if_pos hemp]
  · unfold wrapParagraph
    by_cases hemp : (pywords p).isEmpty
    · rw [if_pos hemp]; exact ⟨0, rfl⟩
    · rw [if_neg hemp]
      exact wrapWords_snd width maxW (pywords p) ""
        (fun _ => by simpa using hemp) (pywords_ne_empty_string p)
  · unfold wrapParagraphWex
    by_cases hemp : (pywords p).isEmpty
    · rw [if_pos hemp]; exact ⟨0, rfl⟩
    · rw [if_neg hemp]
      exact wrapWordsWex_snd width maxW (pywords p) ""
        (fun _ => by simpa using hemp) (pywords_ne_empty_string p)

/-- Witness for C8 at concrete inputs: the empty paragraph and a
two-word paragraph with a forced break. -/
theorem C8_forced_flags_witness :
    pywords "" = [] ∧
    wrapParagraph String.length 5 "" = [("", false)] ∧
    (∃ n, (wrapParagraph String.length 3 "hello world").map Prod.snd =
      List.replicate n true ++ [false]) := by
  refine ⟨by decide, ((C8_forced_flags String.length 5 "").1 (by decide)).1, ?_⟩
  exact (C8_forced_flags String.length 3 "hello world").2.1

/-- Counterexample for C9: on the single word x with a width measure the
word exceeds, the print_legal wrapper emits a leading empty forced line
that the print_wexhibits wrapper does not. -/
theorem C9_cex :
    wrap_text_to_lines String.length 0 "x" = [("", true), ("x", false)] ∧
    wrap_text_to_lines_wexhibits String.length 0 "x" = [("x", false)] ∧
    wrap_text_to_lines String.length 0 "x" ≠
      wrap_text_to_lines_wexhibits String.length 0 "x" := by
  refine ⟨by decide, by decide, by decide⟩

lemma wrapWords_eq_wex (width : String → Nat) (maxW : Nat) :
    ∀ (ws : List String) (cur : String), cur ≠ "" → (∀ w ∈ ws, w ≠ "") →
      wrapWords width maxW cur ws = wrapWordsWex width maxW cur ws := by
  intro ws
  induction ws with
  | nil => intro cur _ _; rfl
  | cons w rest ih =>
    intro cur hc hws
    have hw : w ≠ "" := hws w (by simp)
    have hrest : ∀ x ∈ rest, x ≠ "" := fun x hx => hws x (by simp [hx])
    have htest : cur ++ " " ++ w ≠ "" := by
      rw [ne_eq, string_eq_empty_iff, testLine_data]
      simp
    simp only [wrapWords, wrapWordsWex, hc, if_false]
    by_cases hfit : width (cur ++ " " ++ w) ≤ maxW
    · rw [if_pos hfit, if_pos hfit]
      exact ih (cur ++ " " ++ w) htest hrest
    · rw [if_neg hfit, if_neg hfit]
      rw [ih w hw hrest]

lemma wrapParagraph_eq_wex (width : String → Nat) (maxW : Nat) (p : String)
    (h : ∀ w ∈ (pywords p).take 1, width w ≤ maxW) :
    wrapParagraph width maxW p = wrapParagraphWex width maxW p := by
  unfold wrapParagraph wrapParagraphWex
  cases hw : pywords p with
  | nil => rfl
  | cons w rest =>
    have hfit : width w ≤ maxW := h w (by simp [hw])
    have hwne : w ≠ "" := pywords_ne_empty_string p w (by simp [hw])
    have hrest : ∀ x ∈ rest, x ≠ "" :=
      fun x hx => pywords_ne_empty_string p x (by simp [hw, hx])
    simp only [List.isEmpty_cons, if_false, Bool.false_eq_true]
    have hl : wrapWords width maxW "" (w :: rest) = wrapWords width maxW w rest := by
      simp [wrapWords, hfit]
    have hr : wrapWordsWex width maxW "" (w :: rest) = wrapWordsWex width maxW w rest := by
      simp [wrapWordsWex]
    rw [hl, hr]
    exact wrapWords_eq_wex width maxW rest w hwne hrest

/-- C9 amended. The two wrapper implementations disagree in general (see
the counterexample); they return the same list of line-flag pairs on
every input in which the first word of each paragraph fits within the
maximum width by itself. -/
theorem C9_amended_equivalence (width : String → Nat) (maxW : Nat)
    (text : String)
    (h : ∀ p ∈ pySplitNl text, ∀ w ∈ (pywords p).take 1, width w ≤ maxW) :
    wrap_text_to_lines width maxW text =
      wrap_text_to_lines_wexhibits width maxW text := by
  unfold wrap_text_to_lines wrap_text_to_lines_wexhibits
  exact flatMap_congr_mem _ _ _
    (fun p hp => wrapParagraph_eq_wex width maxW p (h p hp))

/-- Witness for the amended C9 at a concrete input whose first words fit. -/
theorem C9_amended_equivalence_witness :
    (∀ p ∈ pySplitNl "ab cd\nxy", ∀ w ∈ (pywords p).take 1,
      String.length w ≤ 2) ∧
    wrap_text_to_lines String.length 2 "ab cd\nxy" =
      wrap_text_to_lines_wexhibits String.length 2 "ab cd\nxy" := by
  refine ⟨by decide, ?_⟩
  exact C9_amended_equivalence String.length 2 "ab cd\nxy" (by decide)

/-- C10. Neither wrapper ever breaks inside a word: every word of every
paragraph of the input appears whole among the words of some returned
line; moreover a word whose measured width alone exceeds the maximum is
still returned within a single line, so a returned line can measure wider
than the maximum (witnessed by the word hello at maximum width zero). -/
theorem C10_no_word_breaking (width : String → Nat) (maxW : Nat)
    (text p w : String) (hp : p ∈ pySplitNl text) (hw : w ∈ pywords p) :
    (∃ x ∈ wrap_text_to_lines width maxW text, w ∈ pywords x.1) ∧
    (∃ x ∈ wrap_text_to_lines_wexhibits width maxW text, w ∈ pywords x.1) ∧
    ("hello", false) ∈ wrap_text_to_lines String.length 0 "hello" ∧
    ("hello", false) ∈ wrap_text_to_lines_wexhibits String.length 0 "hello" ∧
    0 < String.length "hello" := by
  refine ⟨?_, ?_, by decide, by decide, by decide⟩
  · have hfid := wrapParagraph_flatWords width maxW p
    have hmem : w ∈ flatWords (wrapParagraph width maxW p) := by rw [hfid]; exact hw
    rcases List.mem_flatMap.mp hmem with ⟨x, hx, hwx⟩
    refine ⟨x, ?_, hwx⟩
    unfold wrap_text_to_lines
    exact List.mem_flatMap.mpr ⟨p, hp, hx⟩
  · have hfid := wrapParagraphWex_flatWords width maxW p
    have hmem : w ∈ flatWords (wrapParagraphWex width maxW p) := by rw [hfid]; exact hw
    rcases List.mem_flatMap.mp hmem with ⟨x, hx, hwx⟩
    refine ⟨x, ?_, hwx⟩
    unfold wrap_text_to_lines_wexhibits
    exact List.mem_flatMap.mpr ⟨p, hp, hx⟩

/-- Witness for C10 at a concrete input. -/
theorem C10_no_word_breaking_witness :
    ("hi there" ∈ pySplitNl "hi there") ∧ ("there" ∈ pywords "hi there") ∧
    (∃ x ∈ wrap_text_to_lines String.length 3 "hi there",
      "there" ∈ pywords x.1) := by
  refine ⟨by decide, by decide, ?_⟩
  exact (C10_no_word_breaking String.length 3 "hi there" "hi there" "there"
    (by decide) (by decide)).1

/-! ## Lemmas on the title-block detector -/

lemma splitAtMarker_none (ls : List String)
    (h : ∀ l ∈ ls, is_full_equals_line l = false) : splitAtMarker ls = none := by
  induction ls with
  | nil => rfl
  | cons l rest ih =>
    have hl : is_full_equals_line l = false := h l (by simp)
    have hrest := ih (fun x hx => h x (by simp [hx]))
    simp [splitAtMarker, hl, hrest]

lemma detectAux_no_marker (rest : List String) :
    ∀ fuel, rest.length ≤ fuel →
      (∀ l ∈ rest, is_full_equals_line l = false) →
      detectAux fuel rest = rest.map BlockItem.normalLine := by
  induction rest with
  | nil => intro fuel _ _; cases fuel <;> rfl
  | cons l rs ih =>
    intro fuel hfuel h
    have hl : is_full_equals_line l = false := h l (by simp)
    cases fuel with
    | zero => simp at hfuel
    | succ f =>
      have : rs.length ≤ f := by simpa using hfuel
      simp [detectAux, hl, ih f this (fun x hx => h x (by simp [hx]))]

/-- C7. For every line sequence, an opening marker line with no later
marker line before the sequence ends is yielded by
detect_legal_title_blocks as an ordinary normal_line item, no block is
formed from it, and the detector is a total function of the input (no
error is raised): the whole output is exactly the normal_line items of
the input lines. -/
theorem C7_unmatched_opener (pre rest : List String) (opener : String)
    (hpre : ∀ l ∈ pre, is_full_equals_line l = false)
    (hop : is_full_equals_line opener = true)
    (hrest : ∀ l ∈ rest, is_full_equals_line l = false) :
    detect_legal_title_blocks (pre ++ opener :: rest) =
      pre.map BlockItem.normalLine ++
        BlockItem.normalLine opener :: rest.map BlockItem.normalLine := by
  have main : ∀ (fuel : Nat) (pre2 : List String),
      (pre2 ++ opener :: rest).length ≤ fuel →
      (∀ l ∈ pre2, is_full_equals_line l = false) →
      detectAux fuel (pre2 ++ opener :: rest) =
        pre2.map BlockItem.normalLine ++
          BlockItem.normalLine opener :: rest.map BlockItem.normalLine := by
    intro fuel pre2
    induction pre2 generalizing fuel with
    | nil =>
      intro hfuel _
      cases fuel with
      | zero => simp at hfuel
      | succ f =>
        have hf : rest.length ≤ f := by simpa using hfuel
        simp only [List.nil_append, detectAux, hop, if_true,
          splitAtMarker_none rest hrest]
        rw [detectAux_no_marker rest f hf hrest]
        rfl
    | cons l ls ih =>
      intro hfuel hpre2
      have hl : is_full_equals_line l = false := hpre2 l (by simp)
      cases fuel with
      | zero => simp at hfuel
      | succ f =>
        have hf : (ls ++ opener :: rest).length ≤ f := by
          simpa using hfuel
        have heq : detectAux (f + 1) ((l :: ls) ++ opener :: rest) =
            BlockItem.normalLine l :: detectAux f (ls ++ opener :: rest) := by
          simp [detectAux, hl]
        rw [heq, ih f hf (fun x hx => hpre2 x (by simp [hx]))]
        rfl
  exact main (pre ++ opener :: rest).length pre (le_refl _) hpre

/-- Witness for C7 at a concrete input. -/
theorem C7_unmatched_opener_witness :
    (∀ l ∈ ["alpha"], is_full_equals_line l = false) ∧
    is_full_equals_line "=====" = true ∧
    (∀ l ∈ ["beta", "gamma"], is_full_equals_line l = false) ∧
    detect_legal_title_blocks ["alpha", "=====", "beta", "gamma"] =
      [BlockItem.normalLine "alpha", BlockItem.normalLine "=====",
        BlockItem.normalLine "beta", BlockItem.normalLine "gamma"] := by
  refine ⟨by decide, by decide, by decide, ?_⟩
  exact C7_unmatched_opener ["alpha"] ["beta", "gamma"] "====="
    (by decide) (by decide) (by decide)

/-! ## The heading classifier on the three specified lines -/

/-- Counterexample for C2: in a document containing the line
1.1 BACKGROUND right after the section heading 1. INTRODUCTION, the
parser does not recognize 1.1 BACKGROUND as a heading at all (the heading
pattern requires every numbering group to end with a dot), so it becomes
body text of the preceding section and no subsection is classified. -/
theorem C2_cex :
    parse_header_and_sections "1. INTRODUCTION\n1.1 BACKGROUND" =
      ("", [("1 INTRODUCTION", "1.1 BACKGROUND")]) ∧
    (classify_headings
      (parse_header_and_sections "1. INTRODUCTION\n1.1 BACKGROUND").2).all
      (fun p => p.2 != "subsection") = true ∧
    heading_match "1.1 BACKGROUND" = none := by
  refine ⟨by decide, by decide, by decide⟩

/-! ## Lemmas on the paginator: step equations -/

lemma drawPageLoop_exit (ex : String → List String) (segs : List Segment)
    (max pn fuel i c : Nat) (h : ¬(i < segs.length ∧ c < max)) :
    drawPageLoop ex segs max pn fuel i c = ⟨i, [], [], [], false⟩ := by
  cases fuel with
  | zero => rfl
  | succ f =>
    by_cases h1 : i < segs.length
    · have h2 : ¬ c < max := fun hc => h ⟨h1, hc⟩
      simp [drawPageLoop, h1, h2]
    · simp [drawPageLoop, h1]

lemma drawPageLoop_block0 (ex : String → List String) (segs : List Segment)
    (max pn fuel i : Nat) (bl : List String) (h1 : i < segs.length)
    (h2 : 0 < max) (hseg : segs[i] = Segment.titleBlock bl) :
    drawPageLoop ex segs max pn (fuel + 1) i 0 = ⟨i + 1, [], [], [], true⟩ := by
  simp [drawPageLoop, h1, h2, hseg]

lemma drawPageLoop_blockPos (ex : String → List String) (segs : List Segment)
    (max pn fuel i c : Nat) (bl : List String) (h1 : i < segs.length)
    (h2 : c < max) (hc : 0 < c) (hseg : segs[i] = Segment.titleBlock bl) :
    drawPageLoop ex segs max pn (fuel + 1) i c = ⟨i, [], [], [], false⟩ := by
  simp [drawPageLoop, h1, h2, hseg, hc]

lemma drawPageLoop_text (ex : String → List String) (segs : List Segment)
    (max pn fuel i c : Nat) (t fn al : String) (fs : Nat) (ihd isub : Bool)
    (h1 : i < segs.length) (h2 : c < max)
    (hseg : segs[i] = Segment.text t fn fs al ihd isub) :
    drawPageLoop ex segs max pn (fuel + 1) i c =
      let r := drawPageLoop ex segs max pn fuel (i + 1) (c + 1)
      ⟨r.nextIndex,
        (if ihd || isub then [(t, pn, i + 1, isub)] else []) ++ r.headings,
        ((ex t).map (fun s => (s, pn, i + 1))) ++ r.refs,
        ⟨i, t, pn, i + 1⟩ :: r.rendered, r.blockDrawn⟩ := by
  simp [drawPageLoop, h1, h2, hseg]

lemma consumeRun_exit (segs : List Segment) (max fuel i used : Nat)
    (h : ¬(i < segs.length ∧ used < max)) :
    consumeRun segs max fuel i used = i := by
  cases fuel with
  | zero => rfl
  | succ f =>
    by_cases h1 : i < segs.length
    · have h2 : ¬ used < max := fun hc => h ⟨h1, hc⟩
      simp [consumeRun, h1, h2]
    · simp [consumeRun, h1]

lemma consumeRun_block (segs : List Segment) (max fuel i used : Nat)
    (h1 : i < segs.length) (h2 : used < max)
    (hb : (segs[i]).isBlock = true) :
    consumeRun segs max (fuel + 1) i used = i := by
  simp [consumeRun, h1, h2, hb]

lemma consumeRun_step (segs : List Segment) (max fuel i used : Nat)
    (h1 : i < segs.length) (h2 : used < max)
    (hb : (segs[i]).isBlock = false) :
    consumeRun segs max (fuel + 1) i used =
      consumeRun segs max fuel (i + 1) (used + 1) := by
  simp [consumeRun, h1, h2, hb]

lemma countPagesAux_done (segs : List Segment) (max fuel i : Nat)
    (h : ¬ i < segs.length) : countPagesAux segs max fuel i = some 0 := by
  cases fuel with
  | zero => simp [countPagesAux, h]
  | succ f => simp [countPagesAux, h]

lemma countPagesAux_block (segs : List Segment) (max fuel i : Nat)
    (h : i < segs.length) (hb : (segs[i]).isBlock = true) :
    countPagesAux segs max (fuel + 1) i =
      (countPagesAux segs max fuel (i + 1)).map (· + 1) := by
  simp [countPagesAux, h, hb]

lemma countPagesAux_text (segs : List Segment) (max fuel i : Nat)
    (h : i < segs.length) (hb : (segs[i]).isBlock = false) :
    countPagesAux segs max (fuel + 1) i =
      (countPagesAux segs max fuel
        (consumeRun segs max (segs.length - i) i 0)).map (· + 1) := by
  simp [countPagesAux, h, hb]

lemma renderPassAux_done (ex : String → List String) (segs : List Segment)
    (max fuel i pn : Nat) (h : ¬ i < segs.length) :
    renderPassAux ex segs max fuel i pn = some ⟨0, [], [], []⟩ := by
  cases fuel with
  | zero => simp [renderPassAux, h]
  | succ f => simp [renderPassAux, h]

lemma renderPassAux_step (ex : String → List String) (segs : List Segment)
    (max fuel i pn : Nat) (h : i < segs.length) :
    renderPassAux ex segs max (fuel + 1) i pn =
      (renderPassAux ex segs max fuel
        (draw_page_of_segments ex segs max pn i).nextIndex (pn + 1)).map
        (fun r =>
          ⟨r.pages + 1,
            (draw_page_of_segments ex segs max pn i).headings ++ r.headings,
            (draw_page_of_segments ex segs max pn i).refs ++ r.refs,
            (draw_page_of_segments ex segs max pn i).rendered ++ r.rendered⟩) := by
  simp [renderPassAux, h]

/-! ## Lemmas on the paginator: index bounds -/

lemma drawPageLoop_nextIndex_ge (ex : String → List String)
    (segs : List Segment) (max pn : Nat) :
    ∀ fuel i c, i ≤ (drawPageLoop ex segs max pn fuel i c).nextIndex := by
  intro fuel
  induction fuel with
  | zero => intro i c; exact le_refl i
  | succ f ih =>
    intro i c
    by_cases h : i < segs.length ∧ c < max
    · cases hseg : segs[i] with
      | titleBlock bl =>
        rcases Nat.eq_zero_or_pos c with hc | hc
        · subst hc
          rw [drawPageLoop_block0 ex segs max pn f i bl h.1 h.2 hseg]
          exact Nat.le_succ i
        · rw [drawPageLoop_blockPos ex segs max pn f i c bl h.1 h.2 hc hseg]
      | text t fn fs al ihd isub =>
        rw [drawPageLoop_text ex segs max pn f i c t fn al fs ihd isub h.1 h.2 hseg]
        exact le_trans (Nat.le_succ i) (ih (i + 1) (c + 1))
    · rw [drawPageLoop_exit ex segs max pn (f + 1) i c h]

lemma drawPageLoop_nextIndex_le (ex : String → List String)
    (segs : List Segment) (max pn : Nat) :
    ∀ fuel i c, i ≤ segs.length →
      (drawPageLoop ex segs max pn fuel i c).nextIndex ≤ segs.length := by
  intro fuel
  induction fuel with
  | zero => intro i c hi; exact hi
  | succ f ih =>
    intro i c hi
    by_cases h : i < segs.length ∧ c < max
    · cases hseg : segs[i] with
      | titleBlock bl =>
        rcases Nat.eq_zero_or_pos c with hc | hc
        · subst hc
          rw [drawPageLoop_block0 ex segs max pn f i bl h.1 h.2 hseg]
          exact h.1
        · rw [drawPageLoop_blockPos ex segs max pn f i c bl h.1 h.2 hc hseg]
          exact hi
      | text t fn fs al ihd isub =>
        rw [drawPageLoop_text ex segs max pn f i c t fn al fs ihd isub h.1 h.2 hseg]
        exact ih (i + 1) (c + 1) h.1
    · rw [drawPageLoop_exit ex segs max pn (f + 1) i c h]
      exact hi

lemma consumeRun_ge (segs : List Segment) (max : Nat) :
    ∀ fuel i used, i ≤ consumeRun segs max fuel i used := by
  intro fuel
  induction fuel with
  | zero => intro i used; exact le_refl i
  | succ f ih =>
    intro i used
    by_cases h : i < segs.length ∧ used < max
    · by_cases hb : (segs[i]).isBlock = true
      · rw [consumeRun_block segs max f i used h.1 h.2 hb]
      · rw [consumeRun_step segs max f i used h.1 h.2 (by simpa using hb)]
        exact le_trans (Nat.le_succ i) (ih (i + 1) (used + 1))
    · rw [consumeRun_exit segs max (f + 1) i used h]

lemma consumeRun_le (segs : List Segment) (max : Nat) :
    ∀ fuel i used, i ≤ segs.length →
      consumeRun segs max fuel i used ≤ segs.length := by
  intro fuel
  induction fuel with
  | zero => intro i used hi; exact hi
  | succ f ih =>
    intro i used hi
    by_cases h : i < segs.length ∧ used < max
    · by_cases hb : (segs[i]).isBlock = true
      · rw [consumeRun_block segs max f i used h.1 h.2 hb]; exact hi
      · rw [consumeRun_step segs max f i used h.1 h.2 (by simpa using hb)]
        exact ih (i + 1) (used + 1) h.1
    · rw [consumeRun_exit segs max (f + 1) i used h]; exact hi

lemma drawPageLoop_next_eq_consumeRun (ex : String → List String)
    (segs : List Segment) (max pn : Nat) :
    ∀ fuel i c, 1 ≤ c →
      (drawPageLoop ex segs max pn fuel i c).nextIndex =
        consumeRun segs max fuel i c := by
  intro fuel
  induction fuel with
  | zero => intro i c _; rfl
  | succ f ih =>
    intro i c hc
    by_cases h : i < segs.length ∧ c < max
    · cases hseg : segs[i] with
      | titleBlock bl =>
        rw [drawPageLoop_blockPos ex segs max pn f i c bl h.1 h.2 hc hseg,
          consumeRun_block segs max f i c h.1 h.2 (by rw [hseg]; rfl)]
      | text t fn fs al ihd isub =>
        rw [drawPageLoop_text ex segs max pn f i c t fn al fs ihd isub h.1 h.2 hseg,
          consumeRun_step segs max f i c h.1 h.2 (by rw [hseg]; rfl)]
        exact ih (i + 1) (c + 1) (by omega)
    · rw [drawPageLoop_exit ex segs max pn (f + 1) i c h,
        consumeRun_exit segs max (f + 1) i c h]

/-! ## Lemmas on the paginator: one page at a time -/

lemma draw_page_block_start (ex : String → List String) (segs : List Segment)
    (max pn i : Nat) (bl : List String) (hm : 0 < max) (hi : i < segs.length)
    (hseg : segs[i] = Segment.titleBlock bl) :
    draw_page_of_segments ex segs max pn i = ⟨i + 1, [], [], [], true⟩ := by
  unfold draw_page_of_segments
  obtain ⟨k, hk⟩ : ∃ k, segs.length - i = k + 1 :=
    ⟨segs.length - i - 1, by omega⟩
  rw [hk]
  exact drawPageLoop_block0 ex segs max pn k i bl hi hm hseg

lemma draw_page_text_start (ex : String → List String) (segs : List Segment)
    (max pn i : Nat) (t fn al : String) (fs : Nat) (ihd isub : Bool)
    (hm : 0 < max) (hi : i < segs.length)
    (hseg : segs[i] = Segment.text t fn fs al ihd isub) :
    (draw_page_of_segments ex segs max pn i).nextIndex =
      consumeRun segs max (segs.length - i) i 0 := by
  unfold draw_page_of_segments
  obtain ⟨k, hk⟩ : ∃ k, segs.length - i = k + 1 :=
    ⟨segs.length - i - 1, by omega⟩
  rw [hk]
  rw [drawPageLoop_text ex segs max pn k i 0 t fn al fs ihd isub hi hm hseg]
  rw [consumeRun_step segs max k i 0 hi hm (by rw [hseg]; rfl)]
  exact drawPageLoop_next_eq_consumeRun ex segs max pn k (i + 1) 1 (le_refl 1)

lemma consumeRun_progress (segs : List Segment) (max i : Nat) (hm : 0 < max)
    (hi : i < segs.length) (hb : (segs[i]).isBlock = false) :
    i + 1 ≤ consumeRun segs max (segs.length - i) i 0 := by
  obtain ⟨k, hk⟩ : ∃ k, segs.length - i = k + 1 :=
    ⟨segs.length - i - 1, by omega⟩
  rw [hk, consumeRun_step segs max k i 0 hi hm hb]
  exact consumeRun_ge segs max k (i + 1) 1

/-! ## C1: the counting pass and the render pass agree -/

lemma passes_agree (ex : String → List String) (segs : List Segment)
    (max : Nat) (hm : 0 < max) :
    ∀ fuel i pn, segs.length - i ≤ fuel →
      (renderPassAux ex segs max fuel i pn).isSome = true ∧
      countPagesAux segs max fuel i =
        (renderPassAux ex segs max fuel i pn).map RenderResult.pages := by
  intro fuel
  induction fuel with
  | zero =>
    intro i pn hfuel
    have hi : ¬ i < segs.length := by omega
    rw [renderPassAux_done ex segs max 0 i pn hi,
      countPagesAux_done segs max 0 i hi]
    exact ⟨rfl, rfl⟩
  | succ f ih =>
    intro i pn hfuel
    by_cases hi : i < segs.length
    · cases hseg : segs[i] with
      | titleBlock bl =>
        have hdraw := draw_page_block_start ex segs max pn i bl hm hi hseg
        have hb : (segs[i]).isBlock = true := by rw [hseg]; rfl
        have hnext : (draw_page_of_segments ex segs max pn i).nextIndex = i + 1 := by
          rw [hdraw]
        rcases ih (i + 1) (pn + 1) (by omega) with ⟨hrs, hcr⟩
        rcases hr : renderPassAux ex segs max f (i + 1) (pn + 1) with _ | r
        · rw [hr] at hrs; cases hrs
        · rw [hr] at hcr
          rw [countPagesAux_block segs max f i hi hb,
            renderPassAux_step ex segs max f i pn hi, hnext, hr, hcr]
          exact ⟨rfl, rfl⟩
      | text t fn fs al ihd isub =>
        have hb : (segs[i]).isBlock = false := by rw [hseg]; rfl
        have hnext := draw_page_text_start ex segs max pn i t fn al fs ihd isub hm hi hseg
        have hprog : i + 1 ≤ consumeRun segs max (segs.length - i) i 0 :=
          consumeRun_progress segs max i hm hi hb
        rcases ih (consumeRun segs max (segs.length - i) i 0) (pn + 1)
          (by omega) with ⟨hrs, hcr⟩
        rcases hr : renderPassAux ex segs max f
            (consumeRun segs max (segs.length - i) i 0) (pn + 1) with _ | r
        · rw [hr] at hrs; cases hrs
        · rw [hr] at hcr
          rw [countPagesAux_text segs max f i hi hb,
            renderPassAux_step ex segs max f i pn hi, hnext, hr, hcr]
          exact ⟨rfl, rfl⟩
    · rw [renderPassAux_done ex segs max (f + 1) i pn hi,
        countPagesAux_done segs max (f + 1) i hi]
      exact ⟨rfl, rfl⟩

/-- C1. For every segment sequence and every positive line budget, both
walks of generate_legal_document terminate and the page count computed by
the counting pass equals the number of draw_page_of_segments calls made by
the render pass. -/
theorem C1_page_count_agreement (ex : String → List String)
    (segs : List Segment) (max : Nat) (hm : 0 < max) :
    (renderPass ex segs max).isSome = true ∧
    countPages segs max = (renderPass ex segs max).map RenderResult.pages :=
  passes_agree ex segs max hm segs.length 0 2 (by omega)

/-- Witness for C1 at a concrete segment sequence containing a title
block. -/
theorem C1_page_count_agreement_witness :
    (0 < 5) ∧
    (renderPass (fun _ => [])
      [Segment.text "a" "Helvetica" 10 "left" false false,
        Segment.titleBlock ["T"],
        Segment.text "b" "Helvetica" 10 "left" false false] 5).isSome = true ∧
    countPages
      [Segment.text "a" "Helvetica" 10 "left" false false,
        Segment.titleBlock ["T"],
        Segment.text "b" "Helvetica" 10 "left" false false] 5 =
      (renderPass (fun _ => [])
        [Segment.text "a" "Helvetica" 10 "left" false false,
          Segment.titleBlock ["T"],
          Segment.text "b" "Helvetica" 10 "left" false false] 5).map
        RenderResult.pages := by
  refine ⟨by decide, ?_, ?_⟩
  · exact (C1_page_count_agreement (fun _ => [])
      [Segment.text "a" "Helvetica" 10 "left" false false,
        Segment.titleBlock ["T"],
        Segment.text "b" "Helvetica" 10 "left" false false] 5 (by decide)).1
  · exact (C1_page_count_agreement (fun _ => [])
      [Segment.text "a" "Helvetica" 10 "left" false false,
        Segment.titleBlock ["T"],
        Segment.text "b" "Helvetica" 10 "left" false false] 5 (by decide)).2

/-! ## C4: title-block pages are atomic -/

lemma drawPageLoop_blockDrawn_pos (ex : String → List String)
    (segs : List Segment) (max pn : Nat) :
    ∀ fuel i c, 0 < c →
      (drawPageLoop ex segs max pn fuel i c).blockDrawn = false := by
  intro fuel
  induction fuel with
  | zero => intro i c _; rfl
  | succ f ih =>
    intro i c hc
    by_cases h : i < segs.length ∧ c < max
    · cases hseg : segs[i] with
      | titleBlock bl =>
        rw [drawPageLoop_blockPos ex segs max pn f i c bl h.1 h.2 hc hseg]
      | text t fn fs al ihd isub =>
        rw [drawPageLoop_text ex segs max pn f i c t fn al fs ihd isub h.1 h.2 hseg]
        exact ih (i + 1) (c + 1) (by omega)
    · rw [drawPageLoop_exit ex segs max pn (f + 1) i c h]

lemma drawPageLoop_blockDrawn_spec (ex : String → List String)
    (segs : List Segment) (max pn : Nat) :
    ∀ fuel i c, (drawPageLoop ex segs max pn fuel i c).blockDrawn = true →
      (drawPageLoop ex segs max pn fuel i c).rendered = [] ∧
      (drawPageLoop ex segs max pn fuel i c).headings = [] ∧
      (drawPageLoop ex segs max pn fuel i c).refs = [] ∧
      (drawPageLoop ex segs max pn fuel i c).nextIndex = i + 1 := by
  intro fuel
  induction fuel with
  | zero => intro i c hd; cases hd
  | succ f ih =>
    intro i c hd
    by_cases h : i < segs.length ∧ c < max
    · cases hseg : segs[i] with
      | titleBlock bl =>
        rcases Nat.eq_zero_or_pos c with hc | hc
        · subst hc
          rw [drawPageLoop_block0 ex segs max pn f i bl h.1 h.2 hseg]
          exact ⟨rfl, rfl, rfl, rfl⟩
        · rw [drawPageLoop_blockPos ex segs max pn f i c bl h.1 h.2 hc hseg] at hd
          cases hd
      | text t fn fs al ihd isub =>
        rw [drawPageLoop_text ex segs max pn f i c t fn al fs ihd isub h.1 h.2 hseg] at hd
        have hd2 : (drawPageLoop ex segs max pn f (i + 1) (c + 1)).blockDrawn = true := hd
        have hfalse := drawPageLoop_blockDrawn_pos ex segs max pn f (i + 1) (c + 1) (by omega)
        rw [hfalse] at hd2
        cases hd2
    · rw [drawPageLoop_exit ex segs max pn (f + 1) i c h] at hd
      cases hd

/-- C4. Pages carrying a title block are atomic: if draw_page_of_segments
starts a page at a title-block segment (empty page), it renders the block
alone, consumes exactly that segment and ends the page with nothing else
rendered; if the page loop reaches a title-block segment after content was
placed (positive line count), it stops without consuming the block or
rendering anything further; and any page whose blockDrawn flag is set
rendered no text line and recorded no heading or reference. -/
theorem C4_block_atomicity (ex : String → List String) (segs : List Segment)
    (max pn : Nat) (hm : 0 < max) :
    (∀ i bl, segs[i]? = some (Segment.titleBlock bl) →
      draw_page_of_segments ex segs max pn i = ⟨i + 1, [], [], [], true⟩) ∧
    (∀ fuel i c bl, 0 < c → segs[i]? = some (Segment.titleBlock bl) →
      drawPageLoop ex segs max pn fuel i c = ⟨i, [], [], [], false⟩) ∧
    (∀ fuel i c, (drawPageLoop ex segs max pn fuel i c).blockDrawn = true →
      (drawPageLoop ex segs max pn fuel i c).rendered = [] ∧
      (drawPageLoop ex segs max pn fuel i c).headings = [] ∧
      (drawPageLoop ex segs max pn fuel i c).refs = [] ∧
      (drawPageLoop ex segs max pn fuel i c).nextIndex = i + 1) := by
  refine ⟨?_, ?_, drawPageLoop_blockDrawn_spec ex segs max pn⟩
  · intro i bl hsome
    rcases List.getElem?_eq_some.mp hsome with ⟨hi, hseg⟩
    exact draw_page_block_start ex segs max pn i bl hm hi hseg
  · intro fuel i c bl hc hsome
    rcases List.getElem?_eq_some.mp hsome with ⟨hi, hseg⟩
    cases fuel with
    | zero => rfl
    | succ f =>
      by_cases h2 : c < max
      · exact drawPageLoop_blockPos ex segs max pn f i c bl hi h2 hc hseg
      · exact drawPageLoop_exit ex segs max pn (f + 1) i c (fun hx => h2 hx.2)

/-- Witness for C4 at a concrete segment sequence. -/
theorem C4_block_atomicity_witness :
    (0 < 5) ∧
    ([Segment.text "a" "Helvetica" 10 "left" false false,
      Segment.titleBlock ["T"]] : List Segment)[1]? =
      some (Segment.titleBlock ["T"]) ∧
    draw_page_of_segments (fun _ => [])
      [Segment.text "a" "Helvetica" 10 "left" false false,
        Segment.titleBlock ["T"]] 5 3 1 = ⟨2, [], [], [], true⟩ := by
  refine ⟨by decide, by decide, ?_⟩
  exact (C4_block_atomicity (fun _ => [])
    [Segment.text "a" "Helvetica" 10 "left" false false,
      Segment.titleBlock ["T"]] 5 3 (by decide)).1 1 ["T"] (by decide)

/-! ## C3: line numbers assigned during the render pass -/

lemma drawPageLoop_rendered_spec (ex : String → List String)
    (segs : List Segment) (max pn : Nat) :
    ∀ fuel i c,
      (drawPageLoop ex segs max pn fuel i c).rendered =
        ((List.range' i
            ((drawPageLoop ex segs max pn fuel i c).nextIndex - i)).filter
          (fun k => isTextIdx segs k)).map
          (fun k => ⟨k, textAt segs k, pn, k + 1⟩) := by
  intro fuel
  induction fuel with
  | zero => intro i c; simp [drawPageLoop]
  | succ f ih =>
    intro i c
    by_cases h : i < segs.length ∧ c < max
    · cases hseg : segs[i] with
      | titleBlock bl =>
        have hsome : segs[i]? = some (Segment.titleBlock bl) := by
          rw [List.getElem?_eq_getElem h.1, hseg]
        have htext : isTextIdx segs i = false := by simp [isTextIdx, hsome]
        rcases Nat.eq_zero_or_pos c with hc | hc
        · subst hc
          rw [drawPageLoop_block0 ex segs max pn f i bl h.1 h.2 hseg]
          simp [htext]
        · rw [drawPageLoop_blockPos ex segs max pn f i c bl h.1 h.2 hc hseg]
          simp
      | text t fn fs al ihd isub =>
        have hsome : segs[i]? = some (Segment.text t fn fs al ihd isub) := by
          rw [List.getElem?_eq_getElem h.1, hseg]
        have htext : isTextIdx segs i = true := by simp [isTextIdx, hsome]
        have htat : textAt segs i = t := by simp [textAt, hsome]
        rw [drawPageLoop_text ex segs max pn f i c t fn al fs ihd isub h.1 h.2 hseg]
        have hge : i + 1 ≤ (drawPageLoop ex segs max pn f (i + 1) (c + 1)).nextIndex :=
          drawPageLoop_nextIndex_ge ex segs max pn f (i + 1) (c + 1)
        show (⟨i, t, pn, i + 1⟩ : RenderedLine) ::
            (drawPageLoop ex segs max pn f (i + 1) (c + 1)).rendered = _
        have hsub : (drawPageLoop ex segs max pn f (i + 1) (c + 1)).nextIndex - i =
            ((drawPageLoop ex segs max pn f (i + 1) (c + 1)).nextIndex - (i + 1)) + 1 := by
          omega
        rw [hsub]
        have hrange : List.range' i
            (((drawPageLoop ex segs max pn f (i + 1) (c + 1)).nextIndex - (i + 1)) + 1) =
            i :: List.range' (i + 1)
              ((drawPageLoop ex segs max pn f (i + 1) (c + 1)).nextIndex - (i + 1)) := rfl
        rw [hrange, List.filter_cons_of_pos (by simpa using htext), List.map_cons, htat]
        rw [ih (i + 1) (c + 1)]
    · rw [drawPageLoop_exit ex segs max pn (f + 1) i c h]
      simp

lemma renderPassAux_rendered_idx (ex : String → List String)
    (segs : List Segment) (max : Nat) :
    ∀ fuel i pn r, i ≤ segs.length →
      renderPassAux ex segs max fuel i pn = some r →
      r.rendered.map (fun e => (e.idx, e.line)) =
        ((List.range' i (segs.length - i)).filter
          (fun k => isTextIdx segs k)).map (fun k => (k, k + 1)) := by
  intro fuel
  induction fuel with
  | zero =>
    intro i pn r hile hsome
    by_cases hi : i < segs.length
    · rw [show renderPassAux ex segs max 0 i pn = none by simp [renderPassAux, hi]] at hsome
      cases hsome
    · have h0 : segs.length - i = 0 := by omega
      rw [renderPassAux_done ex segs max 0 i pn hi] at hsome
      cases hsome
      rw [h0]
      rfl
  | succ f ih =>
    intro i pn r hile hsome
    by_cases hi : i < segs.length
    · rw [renderPassAux_step ex segs max f i pn hi] at hsome
      rcases hrr : renderPassAux ex segs max f
          (draw_page_of_segments ex segs max pn i).nextIndex (pn + 1) with _ | r2
      · rw [hrr] at hsome; cases hsome
      · rw [hrr] at hsome
        have hr : r = ⟨r2.pages + 1,
            (draw_page_of_segments ex segs max pn i).headings ++ r2.headings,
            (draw_page_of_segments ex segs max pn i).refs ++ r2.refs,
            (draw_page_of_segments ex segs max pn i).rendered ++ r2.rendered⟩ :=
          (Option.some.inj hsome).symm
        have hjge : i ≤ (draw_page_of_segments ex segs max pn i).nextIndex :=
          drawPageLoop_nextIndex_ge ex segs max pn (segs.length - i) i 0
        have hjle : (draw_page_of_segments ex segs max pn i).nextIndex ≤ segs.length :=
          drawPageLoop_nextIndex_le ex segs max pn (segs.length - i) i 0 hile
        have hchunk := drawPageLoop_rendered_spec ex segs max pn (segs.length - i) i 0
        have hrec := ih (draw_page_of_segments ex segs max pn i).nextIndex (pn + 1) r2
          hjle hrr
        have hsplit : List.range' i (segs.length - i) =
            List.range' i ((draw_page_of_segments ex segs max pn i).nextIndex - i) ++
            List.range' (draw_page_of_segments ex segs max pn i).nextIndex
              (segs.length - (draw_page_of_segments ex segs max pn i).nextIndex) := by
          have hra := List.range'_append i
            ((draw_page_of_segments ex segs max pn i).nextIndex - i)
            (segs.length - (draw_page_of_segments ex segs max pn i).nextIndex) 1
          have h1 : i + 1 * ((draw_page_of_segments ex segs max pn i).nextIndex - i) =
              (draw_page_of_segments ex segs max pn i).nextIndex := by omega
          have h2 : segs.length - (draw_page_of_segments ex segs max pn i).nextIndex +
              ((draw_page_of_segments ex segs max pn i).nextIndex - i) =
              segs.length - i := by omega
          rw [h1, h2] at hra
          exact hra.symm
        rw [hr]
        show ((draw_page_of_segments ex segs max pn i).rendered ++ r2.rendered).map
          (fun e => (e.idx, e.line)) = _
        rw [List.map_append, hsplit, List.filter_append, List.map_append, hrec]
        congr 1
        unfold draw_page_of_segments at hchunk ⊢
        rw [hchunk, List.map_map]
        rfl
    · have h0 : segs.length - i = 0 := by omega
      rw [renderPassAux_done ex segs max (f + 1) i pn hi] at hsome
      cases hsome
      rw [h0]
      rfl

/-- Counterexample for C3: in a document whose segments are a text line, a
title block and a second text line, the render pass assigns line numbers 1
and 3 to the two rendered text segments, so the line-number sequence does
not increase by exactly one across the page occupied by the title block. -/
theorem C3_cex :
    (renderPass (fun _ => [])
      [Segment.text "a" "Helvetica" 10 "left" false false,
        Segment.titleBlock ["T"],
        Segment.text "b" "Helvetica" 10 "left" false false] 5).map
      (fun r => r.rendered.map RenderedLine.line) = some [1, 3] ∧
    isSuccChain [1, 3] = false := by
  refine ⟨by decide, by decide⟩

/-- C3 amended. In every rendered document the line number of each
rendered text segment is its segment index plus one: the rendered
line-number sequence is strictly increasing across the whole document
with no reset at page boundaries, and it increases by exactly one between
consecutive rendered text segments except across intervening title-block
segments, each of which consumes exactly one line number (so the step
across a title-block page is larger by the number of blocks skipped). -/
theorem C3_amended_line_numbers (ex : String → List String)
    (segs : List Segment) (max : Nat) (r : RenderResult)
    (h : renderPass ex segs max = some r) :
    r.rendered.map (fun e => (e.idx, e.line)) =
      ((List.range segs.length).filter (fun k => isTextIdx segs k)).map
        (fun k => (k, k + 1)) ∧
    List.Chain' (· < ·) (r.rendered.map RenderedLine.line) ∧
    ∀ e ∈ r.rendered, e.line = e.idx + 1 := by
  have hmain := renderPassAux_rendered_idx ex segs max segs.length 0 2 r
    (by omega) h
  rw [Nat.sub_zero, ← List.range_eq_range' segs.length] at hmain
  refine ⟨hmain, ?_, ?_⟩
  · have hlines : r.rendered.map RenderedLine.line =
        ((List.range segs.length).filter (fun k => isTextIdx segs k)).map
          (fun k => k + 1) := by
      have hc := congrArg (List.map Prod.snd) hmain
      rw [List.map_map, List.map_map] at hc
      exact hc
    rw [hlines]
    apply List.chain'_iff_pairwise.mpr
    exact List.Pairwise.map (fun k => k + 1)
      (fun a b hab => Nat.add_lt_add_right hab 1)
      (List.Pairwise.sublist (List.filter_sublist _)
        (List.pairwise_lt_range segs.length))
  · intro e he
    have hmem : (e.idx, e.line) ∈ r.rendered.map (fun e => (e.idx, e.line)) :=
      List.mem_map_of_mem _ he
    rw [hmain] at hmem
    rcases List.mem_map.mp hmem with ⟨k, _, hpair⟩
    have h1 : k = e.idx := congrArg Prod.fst hpair
    have h2 : k + 1 = e.line := congrArg Prod.snd hpair
    omega

/-- Witness for the amended C3 at a concrete document with a title block. -/
theorem C3_amended_line_numbers_witness :
    renderPass (fun _ => [])
      [Segment.text "a" "Helvetica" 10 "left" false false,
        Segment.titleBlock ["T"],
        Segment.text "b" "Helvetica" 10 "left" false false] 5 =
      some ⟨3, [], [], [⟨0, "a", 2, 1⟩, ⟨2, "b", 4, 3⟩]⟩ ∧
    ([⟨0, "a", 2, 1⟩, ⟨2, "b", 4, 3⟩] : List RenderedLine).map
      (fun e => (e.idx, e.line)) =
      ((List.range 3).filter
        (fun k => isTextIdx
          [Segment.text "a" "Helvetica" 10 "left" false false,
            Segment.titleBlock ["T"],
            Segment.text "b" "Helvetica" 10 "left" false false] k)).map
        (fun k => (k, k + 1)) := by
  refine ⟨by decide, ?_⟩
  exact (C3_amended_line_numbers (fun _ => [])
    [Segment.text "a" "Helvetica" 10 "left" false false,
      Segment.titleBlock ["T"],
      Segment.text "b" "Helvetica" 10 "left" false false] 5
    ⟨3, [], [], [⟨0, "a", 2, 1⟩, ⟨2, "b", 4, 3⟩]⟩ (by decide)).1

/-! ## C6: citation positions recorded during the render pass -/

lemma drawPageLoop_refs_spec (ex : String → List String)
    (segs : List Segment) (max pn : Nat) :
    ∀ fuel i c,
      (drawPageLoop ex segs max pn fuel i c).refs =
        (drawPageLoop ex segs max pn fuel i c).rendered.flatMap
          (fun e => (ex e.text).map (fun s => (s, e.page, e.line))) := by
  intro fuel
  induction fuel with
  | zero => intro i c; rfl
  | succ f ih =>
    intro i c
    by_cases h : i < segs.length ∧ c < max
    · cases hseg : segs[i] with
      | titleBlock bl =>
        rcases Nat.eq_zero_or_pos c with hc | hc
        · subst hc
          rw [drawPageLoop_block0 ex segs max pn f i bl h.1 h.2 hseg]
          rfl
        · rw [drawPageLoop_blockPos ex segs max pn f i c bl h.1 h.2 hc hseg]
          rfl
      | text t fn fs al ihd isub =>
        rw [drawPageLoop_text ex segs max pn f i c t fn al fs ihd isub h.1 h.2 hseg]
        show (ex t).map (fun s => (s, pn, i + 1)) ++
            (drawPageLoop ex segs max pn f (i + 1) (c + 1)).refs =
          ((⟨i, t, pn, i + 1⟩ : RenderedLine) ::
            (drawPageLoop ex segs max pn f (i + 1) (c + 1)).rendered).flatMap
            (fun e => (ex e.text).map (fun s => (s, e.page, e.line)))
        rw [List.flatMap_cons, ih (i + 1) (c + 1)]
    · rw [drawPageLoop_exit ex segs max pn (f + 1) i c h]
      rfl

lemma renderPassAux_refs_spec (ex : String → List String)
    (segs : List Segment) (max : Nat) :
    ∀ fuel i pn r, renderPassAux ex segs max fuel i pn = some r →
      r.refs = r.rendered.flatMap
        (fun e => (ex e.text).map (fun s => (s, e.page, e.line))) := by
  intro fuel
  induction fuel with
  | zero =>
    intro i pn r hsome
    by_cases hi : i < segs.length
    · rw [show renderPassAux ex segs max 0 i pn = none by
        simp [renderPassAux, hi]] at hsome
      cases hsome
    · rw [renderPassAux_done ex segs max 0 i pn hi] at hsome
      cases hsome
      rfl
  | succ f ih =>
    intro i pn r hsome
    by_cases hi : i < segs.length
    · rw [renderPassAux_step ex segs max f i pn hi] at hsome
      rcases hrr : renderPassAux ex segs max f
          (draw_page_of_segments ex segs max pn i).nextIndex (pn + 1) with _ | r2
      · rw [hrr] at hsome; cases hsome
      · rw [hrr] at hsome
        have hr : r = ⟨r2.pages + 1,
            (draw_page_of_segments ex segs max pn i).headings ++ r2.headings,
            (draw_page_of_segments ex segs max pn i).refs ++ r2.refs,
            (draw_page_of_segments ex segs max pn i).rendered ++ r2.rendered⟩ :=
          (Option.some.inj hsome).symm
        rw [hr]
        show (draw_page_of_segments ex segs max pn i).refs ++ r2.refs =
          ((draw_page_of_segments ex segs max pn i).rendered ++ r2.rendered).flatMap
            (fun e => (ex e.text).map (fun s => (s, e.page, e.line)))
        rw [List.flatMap_append, ih (draw_page_of_segments ex segs max pn i).nextIndex
          (pn + 1) r2 hrr]
        congr 1
        exact drawPageLoop_refs_spec ex segs max pn (segs.length - i) i 0
    · rw [renderPassAux_done ex segs max (f + 1) i pn hi] at hsome
      cases hsome
      rfl

/-- C6. During the render pass every rendered text line is tested against
the citation-recognition patterns, and every stripped nonempty capture
group of every match appends a citationText, pageNumber, lineNumber entry
keyed by the page and line values assigned to that line at render time:
the reference-position list is exactly the in-order concatenation, over
the rendered lines, of the extract_references output of each line tagged
with the render-time page and line number of that line.  The regex engine
behind the pattern table is abstracted as the findall argument of
extract_references. -/
theorem C6_citation_positions
    (findall : String → List (String × String × String × String × String))
    (segs : List Segment) (max : Nat) (r : RenderResult)
    (h : renderPass (extract_references findall) segs max = some r) :
    r.refs = r.rendered.flatMap
      (fun e => (extract_references findall e.text).map
        (fun s => (s, e.page, e.line))) :=
  renderPassAux_refs_spec (extract_references findall) segs max
    segs.length 0 2 r h

/-- Witness for C6 at a concrete document and a one-pattern table whose
single group matches the whole line. -/
theorem C6_citation_positions_witness :
    renderPass (extract_references (fun t => [(t, "", "", "", "")]))
      [Segment.text "b" "Helvetica" 10 "left" false false] 5 =
      some ⟨1, [], [("b", 2, 1)], [⟨0, "b", 2, 1⟩]⟩ ∧
    ([("b", 2, 1)] : List (String × Nat × Nat)) =
      ([⟨0, "b", 2, 1⟩] : List RenderedLine).flatMap
        (fun e => (extract_references (fun t => [(t, "", "", "", "")]) e.text).map
          (fun s => (s, e.page, e.line))) := by
  refine ⟨by decide, ?_⟩
  exact C6_citation_positions (fun t => [(t, "", "", "", "")])
    [Segment.text "b" "Helvetica" 10 "left" false false] 5
    ⟨1, [], [("b", 2, 1)], [⟨0, "b", 2, 1⟩]⟩ (by decide)

/-- C2 amended. On the three specified lines the classifier behaves as
follows: the line 1. INTRODUCTION is recognized as a heading and
classified as a section; the mixed-case line 1. Introduction matches the
numbering pattern but fails the all-caps test and is treated as body
text; and the line 1.1 BACKGROUND is not recognized as a heading at all,
because the heading pattern requires each numbering group to end with a
literal dot, and is likewise treated as body text. -/
theorem C2_amended :
    heading_match "1. INTRODUCTION" = some ("1.", "INTRODUCTION") ∧
    is_line_all_caps "INTRODUCTION" = true ∧
    parse_header_and_sections
      "preamble\n1. INTRODUCTION\nAlpha body\n1.1 BACKGROUND\n1. Introduction\nOmega" =
      ("preamble",
        [("1 INTRODUCTION", "Alpha body\n1.1 BACKGROUND\n1. Introduction\nOmega")]) ∧
    classify_headings
      [("1 INTRODUCTION", "Alpha body\n1.1 BACKGROUND\n1. Introduction\nOmega")] =
      [("1 INTRODUCTION", "section")] ∧
    heading_match "1.1 BACKGROUND" = none ∧
    heading_match "1. Introduction" = some ("1.", "Introduction") ∧
    is_line_all_caps "Introduction" = false := by
  refine ⟨by decide, by decide, by decide, by decide, by decide, by decide, by decide⟩

end SageLegal
